import Mathlib

/-!
Verification of the daily-journal helper script `daily_entry.py`.

The script prompts for a date and three free-text fields (tech / fitness /
english), loads a possibly pre-existing markdown record for that date to
pre-fill the prompts, rewrites the record file, and optionally runs a
`git add` / `git commit` / `git push` publish sequence.

This file embeds the script shallowly:

* pure string manipulation (`str.splitlines`, `str.strip`, `str.lstrip(">")`,
  `str.removeprefix`, `%Y/%m/%d`-style date rendering, `datetime.strptime`
  with the `"%Y-%m-%d"` pattern) is re-implemented character-for-character
  over `List Char`;
* the record parser `load_existing_details` and the writer `write_file`
  become pure functions from the file's text (an `Option String`, `none`
  meaning the file does not exist) to a `Details` mapping, and from a date
  plus three field strings to the file's text;
* the effectful `main` becomes `main_run`, a pure function from all external
  inputs (today's date, the operator's raw input lines, the filesystem, the
  exit codes of the external git commands) to the list of side effects the
  process performs plus its exit code.
-/

namespace DailyEntry

/-- Line-break characters recognised by Python `str.splitlines`. -/
def isPyLineBreak (c : Char) : Bool :=
  c == '\n' || c == '\r' || c == '\x0b' || c == '\x0c' ||
  c == '\x1c' || c == '\x1d' || c == '\x1e' || c == '\x85' ||
  c == ' ' || c == ' '

/-- Whitespace characters stripped by Python `str.strip()`. -/
def isPySpace (c : Char) : Bool :=
  c == ' ' || c == '\t' || c == '\n' || c == '\r' || c == '\x0b' || c == '\x0c' ||
  c == '\x1c' || c == '\x1d' || c == '\x1e' || c == '\x1f' || c == '\x85' ||
  c == '\xa0' || c == ' ' || c == ' ' || c == ' ' || c == ' ' ||
  c == ' ' || c == ' ' || c == ' ' || c == ' ' || c == ' ' ||
  c == ' ' || c == ' ' || c == ' ' || c == ' ' || c == ' ' ||
  c == ' ' || c == ' ' || c == '　'

/-- Worker for `splitlines`: `acc` holds the current line reversed, `sawCR`
records that the previous character was a carriage return (so that a
following `'\n'` is part of the same `"\r\n"` break, as in Python). -/
def splitlinesAux : List Char → Bool → List Char → List (List Char)
  | acc, _, [] => if acc.isEmpty then [] else [acc.reverse]
  | acc, sawCR, c :: rest =>
    if sawCR && (c == '\n') then splitlinesAux acc false rest
    else if c == '\r' then acc.reverse :: splitlinesAux [] true rest
    else if isPyLineBreak c then acc.reverse :: splitlinesAux [] false rest
    else splitlinesAux (c :: acc) false rest

/-- Python `str.splitlines` (keepends `False`). -/
def splitlines (s : String) : List String :=
  (splitlinesAux [] false s.data).map fun cs => ⟨cs⟩

/-- Python `str.strip()` at the character-list level. -/
def stripData (l : List Char) : List Char :=
  ((l.dropWhile isPySpace).reverse.dropWhile isPySpace).reverse

/-- Python `str.strip()`. -/
def pyStrip (s : String) : String := ⟨stripData s.data⟩

/-- Python `str.lower()` (ASCII case fold, enough for the `"y"`/`"yes"` test). -/
def pyLower (s : String) : String := ⟨s.data.map Char.toLower⟩

/-- Does the character list `s` begin with the pattern `pat`? -/
def beginsWith : List Char → List Char → Bool
  | [], _ => true
  | _ :: _, [] => false
  | p :: ps, c :: cs => p == c && beginsWith ps cs

/-- Python `line.lstrip(">")`: remove every leading `'>'`. -/
def dropGtData (l : List Char) : List Char := l.dropWhile fun c => c == '>'

/-- Python `s.removeprefix("细节：")`: drop the label when it is present. -/
def removeLabel (s : String) : String :=
  if beginsWith "细节：".data s.data then ⟨s.data.drop ("细节：".data.length)⟩ else s

/-- Python `line.startswith(">")`. -/
def firstIsGt (s : String) : Bool :=
  match s.data with
  | [] => false
  | c :: _ => c == '>'

/-- One decimal digit character. -/
def digitChar (n : Nat) : Char :=
  match n with
  | 0 => '0' | 1 => '1' | 2 => '2' | 3 => '3' | 4 => '4'
  | 5 => '5' | 6 => '6' | 7 => '7' | 8 => '8' | _ => '9'

/-- Decimal digits of `n`, most significant first (fuel-driven). -/
def natCharsAux : Nat → Nat → List Char → List Char
  | 0, _, acc => acc
  | fuel + 1, n, acc =>
    if n < 10 then digitChar n :: acc
    else natCharsAux fuel (n / 10) (digitChar (n % 10) :: acc)

/-- Decimal rendering of a natural number. -/
def natChars (n : Nat) : List Char := natCharsAux (n + 1) n []

/-- Zero-padded decimal rendering, as `strftime`'s `%Y` / `%m` / `%d` produce. -/
def pad (n width : Nat) : String :=
  ⟨List.replicate (width - (natChars n).length) '0' ++ natChars n⟩

/-- A calendar date as `datetime.date` carries it. -/
structure PyDate where
  year : Nat
  month : Nat
  day : Nat
deriving Repr, DecidableEq

/-- `d.strftime("%Y/%m/%d")`. -/
def dateSlash (d : PyDate) : String :=
  pad d.year 4 ++ "/" ++ pad d.month 2 ++ "/" ++ pad d.day 2

/-- `d.strftime("%Y-%m-%d")`. -/
def dateDash (d : PyDate) : String :=
  pad d.year 4 ++ "-" ++ pad d.month 2 ++ "-" ++ pad d.day 2

/-- `d.strftime("%Y_%m_%d.md")`, the record file name chosen by `main`. -/
def fileNameOf (d : PyDate) : String :=
  pad d.year 4 ++ "_" ++ pad d.month 2 ++ "_" ++ pad d.day 2 ++ ".md"

/-- `TEMPLATE_HEAD.format(date_slash=...)`. -/
def TEMPLATE_HEAD (dateSlashStr : String) : String :=
  "# " ++ dateSlashStr ++ "\n\n"

/-- `TEMPLATE_BODY.format(tech=..., fit=..., eng=...)`. -/
def TEMPLATE_BODY (tech fit eng : String) : String :=
  "## 技术\n\n> 细节：" ++ tech ++ "\n\n## 健身\n\n> 细节：" ++ fit ++
  "\n\n## 英语\n\n> 细节：" ++ eng ++ "\n"

/-- The text that `write_file(path, d, tech, fit, eng)` writes to the file. -/
def write_file_content (d : PyDate) (tech fit eng : String) : String :=
  TEMPLATE_HEAD (dateSlash d) ++ TEMPLATE_BODY tech fit eng

/-- The three field keys of the record (`"tech"`, `"fit"`, `"eng"`). -/
inductive FieldKey
  | tech
  | fit
  | eng
deriving Repr, DecidableEq

/-- The dictionary built by `load_existing_details`: each key may be absent. -/
structure Details where
  tech : Option String := none
  fit : Option String := none
  eng : Option String := none
deriving Repr, DecidableEq

/-- Dictionary lookup `details[k]` (as `Option`). -/
def Details.get (dt : Details) : FieldKey → Option String
  | .tech => dt.tech
  | .fit => dt.fit
  | .eng => dt.eng

/-- Dictionary update `details[k] = v`. -/
def Details.insert (dt : Details) (k : FieldKey) (v : String) : Details :=
  match k with
  | .tech => { dt with tech := some v }
  | .fit => { dt with fit := some v }
  | .eng => { dt with eng := some v }

/-- The `sections` dictionary: heading line to field key. -/
def sectionKey? (line : String) : Option FieldKey :=
  if line = "## 技术" then some .tech
  else if line = "## 健身" then some .fit
  else if line = "## 英语" then some .eng
  else none

/-- Canonical heading line of a field key. -/
def headingOf : FieldKey → String
  | .tech => "## 技术"
  | .fit => "## 健身"
  | .eng => "## 英语"

/-- `line.lstrip(">").strip().removeprefix("细节：").strip()`: the value stored
for a detail line. -/
def detailOf (line : String) : String :=
  pyStrip (removeLabel (pyStrip ⟨dropGtData line.data⟩))

/-- The detail line with markers and whitespace stripped but the label kept:
`line.lstrip(">").strip()`. -/
def stripMarker (line : String) : String := pyStrip ⟨dropGtData line.data⟩

/-- The loop state of `load_existing_details`: the pending section key
(`current`) and the dictionary built so far. -/
structure ScanState where
  current : Option FieldKey
  details : Details
deriving Repr, DecidableEq

/-- One iteration of the `for line in lines` loop of `load_existing_details`. -/
def scanStep (st : ScanState) (line : String) : ScanState :=
  match sectionKey? line with
  | some k => { st with current := some k }
  | none =>
    match st.current with
    | some k =>
      if firstIsGt line then
        { current := none, details := st.details.insert k (detailOf line) }
      else st
    | none => st

/-- `load_existing_details(path)`: `none` models a missing file, `some text`
the file's content. -/
def load_existing_details (file : Option String) : Details :=
  match file with
  | none => {}
  | some text =>
    ((splitlines text).foldl scanStep { current := none, details := {} }).details

/-- Join a list of lines with `'\n'` (character-list level). -/
def linesJoin : List (List Char) → List Char
  | [] => []
  | [l] => l
  | l :: ls => l ++ '\n' :: linesJoin ls

/-- Join a list of lines with `"\n"`. -/
def joinLines : List String → String
  | [] => ""
  | [l] => l
  | l :: ls => l ++ "\n" ++ joinLines ls

/-- `prompt(msg, default)`: `raw` is what the operator types. -/
def prompt (default : Option String) (raw : String) : String :=
  let val := pyStrip raw
  match default with
  | some dflt => if val = "" then dflt else val
  | none => val

/-- `confirm(msg, default)`: `raw` is what the operator types. -/
def confirm (default : Bool) (raw : String) : Bool :=
  let val := pyLower (pyStrip raw)
  if val = "" then default
  else val = "y" || val = "yes"

/-- Python `text.split("-")` restricted to the single separator `'-'`. -/
def splitOnDash : List Char → List (List Char)
  | [] => [[]]
  | c :: rest =>
    let r := splitOnDash rest
    if c = '-' then [] :: r
    else
      match r with
      | g :: gs => (c :: g) :: gs
      | [] => [[c]]

/-- Start codepoints of the Unicode decimal-digit blocks (category `Nd`,
what Python's regex `\d` matches without `re.ASCII`): 66 blocks of ten
consecutive codepoints, a digit's value being its offset in its block. -/
def pyDigitBlockStarts : List Nat :=
  [0x30, 0x660, 0x6f0, 0x7c0, 0x966, 0x9e6, 0xa66, 0xae6, 0xb66, 0xbe6,
   0xc66, 0xce6, 0xd66, 0xde6, 0xe50, 0xed0, 0xf20, 0x1040, 0x1090, 0x17e0,
   0x1810, 0x1946, 0x19d0, 0x1a80, 0x1a90, 0x1b50, 0x1bb0, 0x1c40, 0x1c50,
   0xa620, 0xa8d0, 0xa900, 0xa9d0, 0xa9f0, 0xaa50, 0xabf0, 0xff10, 0x104a0,
   0x10d30, 0x11066, 0x110f0, 0x11136, 0x111d0, 0x112f0, 0x11450, 0x114d0,
   0x11650, 0x116c0, 0x11730, 0x118e0, 0x11950, 0x11c50, 0x11d50, 0x11da0,
   0x16a60, 0x16ac0, 0x16b50, 0x1d7ce, 0x1d7d8, 0x1d7e2, 0x1d7ec, 0x1d7f6,
   0x1e140, 0x1e2f0, 0x1e950, 0x1fbf0]

/-- Python's regex `\d`: any Unicode decimal digit. -/
def isPyDigit (c : Char) : Bool :=
  pyDigitBlockStarts.any fun s => s ≤ c.toNat && c.toNat ≤ s + 9

/-- Decimal value of a Unicode decimal digit, as Python's `int()` reads it. -/
def pyDigitVal (c : Char) : Nat :=
  pyDigitBlockStarts.foldl
    (fun acc s => if s ≤ c.toNat && c.toNat ≤ s + 9 then c.toNat - s else acc) 0

/-- Numeric value of a run of decimal digit characters — `int()` applied to
a matched group. -/
def numVal (cs : List Char) : Nat :=
  cs.foldl (fun a c => a * 10 + pyDigitVal c) 0

/-- A month group as `strptime`'s `%m` pattern `1[0-2]|0[1-9]|[1-9]`
accepts it; all its characters are literal ASCII digits or ASCII ranges. -/
def validMonthGroup (g : List Char) : Bool :=
  match g with
  | [c] => '1' ≤ c && c ≤ '9'
  | [c1, c2] =>
      (c1 == '1' && '0' ≤ c2 && c2 ≤ '2') || (c1 == '0' && '1' ≤ c2 && c2 ≤ '9')
  | _ => false

/-- A day group as `strptime`'s `%d` pattern `3[01]|[12]\d|0[1-9]|[1-9]`
accepts it — the second character of the `[12]\d` branch may be any Unicode
decimal digit, the rest is ASCII. -/
def validDayGroup (g : List Char) : Bool :=
  match g with
  | [c] => '1' ≤ c && c ≤ '9'
  | [c1, c2] =>
      (c1 == '3' && (c2 == '0' || c2 == '1')) ||
      ((c1 == '1' || c1 == '2') && isPyDigit c2) ||
      (c1 == '0' && '1' ≤ c2 && c2 ≤ '9')
  | _ => false

/-- Gregorian leap-year test, as `datetime` uses. -/
def isLeap (y : Nat) : Bool :=
  (y % 4 == 0 && y % 100 != 0) || y % 400 == 0

/-- Days in a month, as `datetime` uses. -/
def daysInMonth (y m : Nat) : Nat :=
  if m = 2 then (if isLeap y then 29 else 28)
  else if m = 4 ∨ m = 6 ∨ m = 9 ∨ m = 11 then 30
  else 31

/-- `parse_date(text)`: `datetime.strptime(text, "%Y-%m-%d").date()`, with
`none` standing for the `ValueError` the script catches.  `strptime` turns
the pattern into the regex
`(?P<Y>\d\d\d\d)-(?P<m>1[0-2]|0[1-9]|[1-9])-(?P<d>3[01]|[12]\d|0[1-9]|[1-9])`,
requires it to consume the whole string, converts each group with `int()`
(which reads any Unicode decimal digit), and the `datetime` constructor
then rejects year 0 and days beyond the month's length.  Since `\d` never
matches `'-'` and each group is all digits, splitting at `'-'` yields
exactly the three groups. -/
def parse_date (s : String) : Option PyDate :=
  match splitOnDash s.data with
  | [yg, mg, dg] =>
    if yg.length = 4 && yg.all isPyDigit && validMonthGroup mg && validDayGroup dg then
      let y := numVal yg
      let m := numVal mg
      let d := numVal dg
      if 1 ≤ y && d ≤ daysInMonth y m then some ⟨y, m, d⟩ else none
    else none
  | _ => none

/-- The `git add` command run by `main`. -/
def gitAddCmd (fname : String) : List String := ["git", "add", fname]

/-- The `git commit` command run by `main`. -/
def gitCommitCmd (msg : String) : List String := ["git", "commit", "-m", msg]

/-- The `git push` command run by `main`. -/
def gitPushCmd : List String := ["git", "push"]

/-- The externally visible side effects of one run of `main`. -/
inductive Event
  | readFile (fname : String)
  | writeFile (fname : String) (content : String)
  | runGit (cmd : List String)
deriving Repr, DecidableEq

/-- The observable outcome of one run of `main`: the side effects in order,
and the process exit code (`0` for a clean return, the argument of
`SystemExit` otherwise; a bare `SystemExit(msg)` exits with code `1`). -/
structure RunResult where
  events : List Event
  exitCode : Int
deriving Repr, DecidableEq

/-- `main()`, as a pure function of its external inputs: today's date, the
operator's raw input lines, the filesystem (`fs name` is the content of file
`name`, or `none`), and the exit codes the external `git` binary returns. -/
def main_run (today : PyDate) (dateRaw : String) (fs : String → Option String)
    (techRaw fitRaw engRaw confirmRaw : String)
    (runner : List String → Int) : RunResult :=
  let date_input := prompt (some (dateDash today)) dateRaw
  match parse_date date_input with
  | none => ⟨[], 1⟩
  | some d =>
    let fname := fileNameOf d
    let existingFile := fs fname
    let existing := load_existing_details existingFile
    let tech := prompt (some (existing.tech.getD "")) techRaw
    let fit := prompt (some (existing.fit.getD "")) fitRaw
    let eng := prompt (some (existing.eng.getD "")) engRaw
    let content := write_file_content d tech fit eng
    let ev0 := (if existingFile.isSome then [Event.readFile fname] else []) ++
      [Event.writeFile fname content]
    if confirm false confirmRaw = false then ⟨ev0, 0⟩
    else
      let msg := "chore: daily log " ++ dateDash d
      let a := runner (gitAddCmd fname)
      if a ≠ 0 then ⟨ev0 ++ [Event.runGit (gitAddCmd fname)], a⟩
      else
        let c := runner (gitCommitCmd msg)
        if c ≠ 0 then
          ⟨ev0 ++ [Event.runGit (gitAddCmd fname), Event.runGit (gitCommitCmd msg)], c⟩
        else
          let p := runner gitPushCmd
          if p ≠ 0 then
            ⟨ev0 ++ [Event.runGit (gitAddCmd fname), Event.runGit (gitCommitCmd msg),
              Event.runGit gitPushCmd], p⟩
          else
            ⟨ev0 ++ [Event.runGit (gitAddCmd fname), Event.runGit (gitCommitCmd msg),
              Event.runGit gitPushCmd], 0⟩

/-! ### Generic `dropWhile` facts -/

theorem dropWhile_length_le {α : Type} (p : α → Bool) (l : List α) :
    (l.dropWhile p).length ≤ l.length := by
  induction l with
  | nil => simp
  | cons a tl ih =>
    rw [List.dropWhile_cons]
    split
    · exact Nat.le_trans ih (Nat.le_succ _)
    · exact Nat.le_refl _

theorem dropWhile_eq_self_of_length {α : Type} (p : α → Bool) (l : List α)
    (h : (l.dropWhile p).length = l.length) : l.dropWhile p = l := by
  induction l with
  | nil => simp
  | cons a tl ih =>
    rw [List.dropWhile_cons] at h ⊢
    simp only [List.length_cons] at h
    by_cases hp : p a = true
    · rw [if_pos hp] at h
      exact absurd h (Nat.ne_of_lt (Nat.lt_succ_of_le (dropWhile_length_le p tl)))
    · rw [if_neg hp]

theorem head?_dropWhile_false {α : Type} (p : α → Bool) (l : List α) (a : α)
    (h : (l.dropWhile p).head? = some a) : p a = false := by
  induction l with
  | nil => simp at h
  | cons x tl ih =>
    rw [List.dropWhile_cons] at h
    split at h
    · exact ih h
    · next hx =>
      rw [List.head?_cons, Option.some.injEq] at h
      subst h
      simpa using hx

theorem dropWhile_eq_self_of_head? {α : Type} (p : α → Bool) (l : List α)
    (h : ∀ a, l.head? = some a → p a = false) : l.dropWhile p = l := by
  cases l with
  | nil => simp
  | cons x tl =>
    rw [List.dropWhile_cons, h x (by rfl)]
    simp

theorem dropWhile_idem {α : Type} (p : α → Bool) (l : List α) :
    (l.dropWhile p).dropWhile p = l.dropWhile p := by
  apply dropWhile_eq_self_of_head?
  intro a ha
  exact head?_dropWhile_false p l a ha

theorem getLast?_dropWhile {α : Type} (p : α → Bool) (l : List α)
    (h : l.dropWhile p ≠ []) : (l.dropWhile p).getLast? = l.getLast? := by
  induction l with
  | nil => simp at h
  | cons x tl ih =>
    rw [List.dropWhile_cons] at h ⊢
    by_cases hp : p x = true
    · rw [if_pos hp] at h ⊢
      cases tl with
      | nil => simp at h
      | cons y ytl => rw [ih h, List.getLast?_cons_cons]
    · rw [if_neg hp]

theorem dropWhile_append_fixed {α : Type} (p : α → Bool) (xs ys : List α)
    (hx : xs.dropWhile p = xs) (hy : ys.dropWhile p = ys) :
    (xs ++ ys).dropWhile p = xs ++ ys := by
  rw [List.dropWhile_append, hx]
  cases xs with
  | nil => simpa using hy
  | cons a tl => simp

/-! ### `stripData` / `pyStrip` facts -/

theorem stripData_fixed_of (l : List Char)
    (h1 : l.dropWhile isPySpace = l) (h2 : l.reverse.dropWhile isPySpace = l.reverse) :
    stripData l = l := by
  rw [stripData, h1, h2, List.reverse_reverse]

theorem stripData_eq_self_parts (l : List Char) (h : stripData l = l) :
    l.dropWhile isPySpace = l ∧ l.reverse.dropWhile isPySpace = l.reverse := by
  have hle1 : (l.dropWhile isPySpace).length ≤ l.length := dropWhile_length_le _ _
  have hle2 : ((l.dropWhile isPySpace).reverse.dropWhile isPySpace).length ≤
      (l.dropWhile isPySpace).length := by
    simpa using dropWhile_length_le isPySpace (l.dropWhile isPySpace).reverse
  have hlen : ((l.dropWhile isPySpace).reverse.dropWhile isPySpace).length = l.length := by
    have := congrArg List.length h
    simpa [stripData] using this
  have h1 : l.dropWhile isPySpace = l :=
    dropWhile_eq_self_of_length _ _ (Nat.le_antisymm hle1 (hlen ▸ hle2))
  refine ⟨h1, ?_⟩
  rw [stripData, h1] at h
  have := congrArg List.reverse h
  rwa [List.reverse_reverse] at this

theorem stripData_idem (l : List Char) : stripData (stripData l) = stripData l := by
  apply stripData_fixed_of
  · apply dropWhile_eq_self_of_head?
    intro a ha
    rw [stripData, List.head?_reverse] at ha
    have hne : (l.dropWhile isPySpace).reverse.dropWhile isPySpace ≠ [] := by
      intro hnil
      rw [hnil] at ha
      simp at ha
    rw [getLast?_dropWhile _ _ hne, List.getLast?_reverse] at ha
    exact head?_dropWhile_false _ _ _ ha
  · rw [stripData, List.reverse_reverse]
    exact dropWhile_idem _ _

theorem pyStrip_idem (s : String) : pyStrip (pyStrip s) = pyStrip s := by
  apply String.ext
  exact stripData_idem s.data

theorem pyStrip_eq_self_parts (s : String) (h : pyStrip s = s) :
    s.data.dropWhile isPySpace = s.data ∧
    s.data.reverse.dropWhile isPySpace = s.data.reverse :=
  stripData_eq_self_parts s.data (congrArg String.data h)

/-! ### `splitlines` facts -/

/-- `noBreak s` says that `s` contains no Python line-break character. -/
def noBreak (s : String) : Bool := s.data.all fun c => !isPyLineBreak c

theorem noBreak_mem {s : String} (h : noBreak s = true) :
    ∀ c ∈ s.data, isPyLineBreak c = false := by
  intro c hc
  have := (List.all_eq_true.mp h) c hc
  simpa using this

theorem splitlinesAux_append_nobreak (xs : List Char)
    (h : ∀ c ∈ xs, isPyLineBreak c = false) (acc cs : List Char) :
    splitlinesAux acc false (xs ++ cs) = splitlinesAux (xs.reverse ++ acc) false cs := by
  induction xs generalizing acc with
  | nil => simp
  | cons x tl ih =>
    have hx : isPyLineBreak x = false := h x (by simp)
    have hxr : (x == '\r') = false := by
      rcases Bool.eq_false_iff.mp hx with _
      by_cases hx' : x = '\r'
      · subst hx'
        simp [isPyLineBreak] at hx
      · simpa using hx'
    rw [List.cons_append, splitlinesAux, Bool.false_and, if_neg (by simp), hxr]
    simp only [Bool.false_eq_true, if_false, hx]
    rw [ih (fun c hc => h c (by simp [hc]))]
    simp

theorem splitlinesAux_newline (acc cs : List Char) :
    splitlinesAux acc false ('\n' :: cs) = acc.reverse :: splitlinesAux [] false cs := by
  rw [splitlinesAux]
  simp [isPyLineBreak]

theorem splitlinesAux_nil (acc : List Char) :
    splitlinesAux acc false [] = if acc.isEmpty then [] else [acc.reverse] := rfl

theorem linesJoin_cons_of_ne (l : List Char) (ls : List (List Char)) (h : ls ≠ []) :
    linesJoin (l :: ls) = l ++ '\n' :: linesJoin ls := by
  cases ls with
  | nil => exact absurd rfl h
  | cons y ys => rfl

/-- Splitting a newline-joined list of break-free lines whose last line is
nonempty recovers the lines. -/
theorem splitlinesAux_linesJoin_last (pre : List (List Char)) (lst : List Char)
    (hpre : ∀ l ∈ pre, ∀ c ∈ l, isPyLineBreak c = false)
    (hlst : ∀ c ∈ lst, isPyLineBreak c = false) (hne : lst ≠ []) :
    splitlinesAux [] false (linesJoin (pre ++ [lst])) = pre ++ [lst] := by
  induction pre with
  | nil =>
    rw [List.nil_append]
    show splitlinesAux [] false (linesJoin [lst]) = [lst]
    rw [linesJoin]
    have := splitlinesAux_append_nobreak lst hlst [] []
    rw [List.append_nil] at this
    rw [this, splitlinesAux_nil]
    rw [if_neg (by simpa using fun h => hne (by simpa using congrArg List.reverse h))]
    simp
  | cons l ls ih =>
    rw [List.cons_append, linesJoin_cons_of_ne _ _ (by simp)]
    rw [splitlinesAux_append_nobreak l (hpre l (by simp)) [] _]
    rw [List.append_nil, splitlinesAux_newline, List.reverse_reverse]
    rw [ih (fun l' hl' => hpre l' (by simp [hl'])) ]

/-- Splitting a newline-joined list of break-free lines followed by a final
newline recovers the lines. -/
theorem splitlinesAux_linesJoin_nl (ls : List (List Char)) (hne : ls ≠ [])
    (h : ∀ l ∈ ls, ∀ c ∈ l, isPyLineBreak c = false) :
    splitlinesAux [] false (linesJoin ls ++ ['\n']) = ls := by
  induction ls with
  | nil => exact absurd rfl hne
  | cons l ls ih =>
    cases ls with
    | nil =>
      rw [linesJoin]
      rw [splitlinesAux_append_nobreak l (h l (by simp)) [] _]
      rw [List.append_nil, splitlinesAux_newline, List.reverse_reverse, splitlinesAux_nil]
      simp
    | cons l2 ls2 =>
      rw [linesJoin_cons_of_ne _ _ (by simp), List.append_assoc, List.cons_append]
      rw [splitlinesAux_append_nobreak l (h l (by simp)) [] _]
      rw [List.append_nil, splitlinesAux_newline, List.reverse_reverse]
      rw [ih (by simp) (fun l' hl' => h l' (by simp [hl']))]

/-! ### Literal character data -/

theorem dataHash : "# ".data = ['#', ' '] := rfl

theorem dataNl : "\n".data = ['\n'] := rfl

theorem dataLabel : "细节：".data = ['细', '节', '：'] := rfl

theorem dataLabelGt : "> 细节：".data = ['>', ' ', '细', '节', '：'] := rfl

theorem dataTechHead : "## 技术".data = ['#', '#', ' ', '技', '术'] := rfl

theorem dataFitHead : "## 健身".data = ['#', '#', ' ', '健', '身'] := rfl

theorem dataEngHead : "## 英语".data = ['#', '#', ' ', '英', '语'] := rfl

/-! ### Scan-step facts -/

theorem sectionKey?_eq_some (l : String) (k : FieldKey) (h : sectionKey? l = some k) :
    l = headingOf k := by
  unfold sectionKey? at h
  split_ifs at h with h1 h2 h3
  · injection h with h'
    subst h'
    exact h1
  · injection h with h'
    subst h'
    exact h2
  · injection h with h'
    subst h'
    exact h3

theorem firstIsGt_not_section (l : String) (h : firstIsGt l = true) :
    sectionKey? l = none := by
  unfold sectionKey?
  split_ifs with h1 h2 h3
  · subst h1
    exact absurd h (by decide)
  · subst h2
    exact absurd h (by decide)
  · subst h3
    exact absurd h (by decide)
  · rfl

theorem scanStep_skip (st : ScanState) (l : String)
    (h1 : sectionKey? l = none) (h2 : firstIsGt l = false) : scanStep st l = st := by
  cases hc : st.current with
  | none => simp [scanStep, h1, hc]
  | some k => simp [scanStep, h1, hc, h2]

theorem scanStep_heading (st : ScanState) (l : String) (k : FieldKey)
    (h : sectionKey? l = some k) : scanStep st l = ⟨some k, st.details⟩ := by
  simp [scanStep, h]

theorem scanStep_detail (D : Details) (k : FieldKey) (l : String)
    (hg : firstIsGt l = true) :
    scanStep ⟨some k, D⟩ l = ⟨none, D.insert k (detailOf l)⟩ := by
  simp [scanStep, firstIsGt_not_section l hg, hg]

theorem scan_section (st : ScanState) (k : FieldKey) (hl dline : String)
    (rest : List String) (hh : sectionKey? hl = some k) (hg : firstIsGt dline = true) :
    List.foldl scanStep st (hl :: "" :: dline :: rest) =
      List.foldl scanStep ⟨none, st.details.insert k (detailOf dline)⟩ rest := by
  simp only [List.foldl_cons]
  rw [scanStep_heading st hl k hh]
  rw [scanStep_skip _ "" (by decide) (by decide)]
  rw [scanStep_detail st.details k dline hg]

theorem details_get_insert_self (dt : Details) (k : FieldKey) (v : String) :
    (dt.insert k v).get k = some v := by
  cases k <;> rfl

/-! ### The strings produced by the templates -/

theorem noBreak_append (s t : String) (hs : noBreak s = true) (ht : noBreak t = true) :
    noBreak (s ++ t) = true := by
  rw [noBreak, String.data_append, List.all_append]
  rw [noBreak] at hs ht
  rw [hs, ht]
  rfl

theorem digitChar_isDigit (n : Nat) : (digitChar n).isDigit = true := by
  unfold digitChar
  split <;> decide

theorem natCharsAux_digits (fuel : Nat) : ∀ (n : Nat) (acc : List Char),
    (∀ c ∈ acc, c.isDigit = true) → ∀ c ∈ natCharsAux fuel n acc, c.isDigit = true := by
  induction fuel with
  | zero =>
    intro n acc hacc
    simpa [natCharsAux] using hacc
  | succ f ih =>
    intro n acc hacc
    rw [natCharsAux]
    split
    · intro c hc
      rcases List.mem_cons.mp hc with rfl | hc
      · exact digitChar_isDigit n
      · exact hacc c hc
    · refine ih _ _ ?_
      intro c hc
      rcases List.mem_cons.mp hc with rfl | hc
      · exact digitChar_isDigit _
      · exact hacc c hc

theorem natChars_digits (n : Nat) : ∀ c ∈ natChars n, c.isDigit = true :=
  natCharsAux_digits _ _ _ (by simp)

theorem isDigit_not_break (c : Char) (h : c.isDigit = true) : isPyLineBreak c = false := by
  by_contra hb
  rw [Bool.not_eq_false] at hb
  simp only [isPyLineBreak, Bool.or_eq_true, beq_iff_eq] at hb
  rcases hb with ((((((((rfl | rfl) | rfl) | rfl) | rfl) | rfl) | rfl) | rfl) | rfl) | rfl <;>
    exact absurd h (by decide)

theorem isDigit_ne_slash (c : Char) (h : c.isDigit = true) : c ≠ '/' := by
  intro rfl0
  subst rfl0
  exact absurd h (by decide)

theorem pad_data (n w : Nat) :
    (pad n w).data = List.replicate (w - (natChars n).length) '0' ++ natChars n := rfl

theorem noBreak_pad (n w : Nat) : noBreak (pad n w) = true := by
  rw [noBreak, List.all_eq_true]
  intro c hc
  rw [pad_data, List.mem_append] at hc
  rcases hc with hc | hc
  · rw [List.eq_of_mem_replicate hc]
    decide
  · simp [isDigit_not_break c (natChars_digits n c hc)]

theorem noBreak_dateSlash (d : PyDate) : noBreak (dateSlash d) = true := by
  rw [dateSlash]
  exact noBreak_append _ _ (noBreak_append _ _ (noBreak_append _ _
    (noBreak_append _ _ (noBreak_pad _ _) (by decide)) (noBreak_pad _ _))
    (by decide)) (noBreak_pad _ _)

/-! ### Decoding one written detail line -/

theorem firstIsGt_label (x : String) : firstIsGt ("> 细节：" ++ x) = true := by
  have hd : ("> 细节：" ++ x).data = '>' :: (' ' :: '细' :: '节' :: '：' :: x.data) := by
    rw [String.data_append, dataLabelGt]
    rfl
  unfold firstIsGt
  rw [hd]
  rfl

theorem sectionKey?_label (x : String) : sectionKey? ("> 细节：" ++ x) = none :=
  firstIsGt_not_section _ (firstIsGt_label x)

theorem firstIsGt_hdr (s : String) : firstIsGt ("# " ++ s) = false := by
  have hd : ("# " ++ s).data = '#' :: (' ' :: s.data) := by
    rw [String.data_append, dataHash]
    rfl
  unfold firstIsGt
  rw [hd]
  rfl

theorem sectionKey?_hdr (s : String) : sectionKey? ("# " ++ s) = none := by
  unfold sectionKey?
  split_ifs with h1 h2 h3
  · exfalso
    have h' := congrArg String.data h1
    rw [String.data_append, dataHash, dataTechHead] at h'
    simp at h'
  · exfalso
    have h' := congrArg String.data h2
    rw [String.data_append, dataHash, dataFitHead] at h'
    simp at h'
  · exfalso
    have h' := congrArg String.data h3
    rw [String.data_append, dataHash, dataEngHead] at h'
    simp at h'
  · rfl

theorem detail_roundtrip (a : String) (ha : pyStrip a = a) :
    detailOf ("> 细节：" ++ a) = a := by
  obtain ⟨hL, hR⟩ := pyStrip_eq_self_parts a ha
  have hdata : ("> 细节：" ++ a).data = '>' :: ' ' :: '细' :: '节' :: '：' :: a.data := by
    rw [String.data_append, dataLabelGt]
    rfl
  have h1 : dropGtData ('>' :: ' ' :: '细' :: '节' :: '：' :: a.data) =
      ' ' :: '细' :: '节' :: '：' :: a.data := by
    rw [dropGtData, List.dropWhile_cons, if_pos (by decide), List.dropWhile_cons,
      if_neg (by decide)]
  have hA : (' ' :: '细' :: '节' :: '：' :: a.data).dropWhile isPySpace =
      '细' :: '节' :: '：' :: a.data := by
    rw [List.dropWhile_cons, if_pos (by decide), List.dropWhile_cons, if_neg (by decide)]
  have hrev : ('细' :: '节' :: '：' :: a.data).reverse = a.data.reverse ++ ['：', '节', '细'] := by
    simp
  have hB : (a.data.reverse ++ ['：', '节', '细']).dropWhile isPySpace =
      a.data.reverse ++ ['：', '节', '细'] :=
    dropWhile_append_fixed _ _ _ hR (by decide)
  have h2 : stripData (' ' :: '细' :: '节' :: '：' :: a.data) = '细' :: '节' :: '：' :: a.data := by
    rw [stripData, hA, hrev, hB]
    simp
  have h2' : pyStrip ⟨' ' :: '细' :: '节' :: '：' :: a.data⟩ =
      ⟨'细' :: '节' :: '：' :: a.data⟩ := String.ext h2
  have h3 : removeLabel ⟨'细' :: '节' :: '：' :: a.data⟩ = ⟨a.data⟩ := by
    rw [removeLabel, if_pos (by rw [dataLabel]; simp [beginsWith])]
    rfl
  rw [detailOf, hdata, h1, h2', h3]
  exact ha

/-! ### `splitlines` over joined and rendered text -/

theorem joinLines_data : ∀ ls : List String,
    (joinLines ls).data = linesJoin (ls.map String.data)
  | [] => rfl
  | [l] => rfl
  | l :: l2 :: ls => by
    show (l ++ "\n" ++ joinLines (l2 :: ls)).data = _
    rw [List.map_cons, linesJoin_cons_of_ne l.data ((l2 :: ls).map String.data) (by simp)]
    rw [String.data_append, String.data_append, joinLines_data (l2 :: ls), dataNl]
    simp

theorem mapMk_map_data (ls : List String) :
    (ls.map String.data).map (fun cs => (⟨cs⟩ : String)) = ls := by
  rw [List.map_map]
  have h : ((fun cs => (⟨cs⟩ : String)) ∘ String.data) = id := funext fun s => rfl
  rw [h, List.map_id]

theorem splitlines_joinLines (pre : List String) (lst : String)
    (hpre : ∀ s ∈ pre, noBreak s = true) (hlst : noBreak lst = true) (hne : lst ≠ "") :
    splitlines (joinLines (pre ++ [lst])) = pre ++ [lst] := by
  rw [splitlines, joinLines_data, List.map_append, List.map_cons, List.map_nil]
  rw [splitlinesAux_linesJoin_last (pre.map String.data) lst.data
    (by
      intro l hl
      rw [List.mem_map] at hl
      obtain ⟨s, hs, rfl⟩ := hl
      exact noBreak_mem (hpre s hs))
    (noBreak_mem hlst)
    (fun h0 => hne (String.ext h0))]
  rw [List.map_append, mapMk_map_data]
  rfl

theorem splitlines_joinLines_nl (ls : List String) (hne : ls ≠ [])
    (h : ∀ s ∈ ls, noBreak s = true) :
    splitlines (joinLines ls ++ "\n") = ls := by
  rw [splitlines, String.data_append, joinLines_data, dataNl]
  rw [splitlinesAux_linesJoin_nl (ls.map String.data) (by simpa using hne)
    (by
      intro l hl
      rw [List.mem_map] at hl
      obtain ⟨s, hs, rfl⟩ := hl
      exact noBreak_mem (h s hs))]
  exact mapMk_map_data ls

/-- The fixed 13-line layout of a rendered record. -/
def encodedLines (d : PyDate) (a b c : String) : List String :=
  ["# " ++ dateSlash d, "", "## 技术", "", "> 细节：" ++ a, "",
   "## 健身", "", "> 细节：" ++ b, "", "## 英语", "", "> 细节：" ++ c]

theorem write_file_content_join (d : PyDate) (a b c : String) :
    write_file_content d a b c = joinLines (encodedLines d a b c) ++ "\n" := by
  apply String.ext
  simp only [encodedLines, joinLines, write_file_content, TEMPLATE_HEAD, TEMPLATE_BODY,
    String.data_append]
  simp

theorem splitlines_write_file_content (d : PyDate) (a b c : String)
    (na : noBreak a = true) (nb : noBreak b = true) (nc : noBreak c = true) :
    splitlines (write_file_content d a b c) = encodedLines d a b c := by
  rw [write_file_content_join]
  apply splitlines_joinLines_nl
  · simp [encodedLines]
  · intro s hs
    simp only [encodedLines, List.mem_cons, List.not_mem_nil, or_false] at hs
    rcases hs with rfl | rfl | rfl | rfl | rfl | rfl | rfl | rfl | rfl | rfl | rfl | rfl | rfl
    · exact noBreak_append _ _ (by decide) (noBreak_dateSlash d)
    · decide
    · decide
    · decide
    · exact noBreak_append _ _ (by decide) na
    · decide
    · decide
    · decide
    · exact noBreak_append _ _ (by decide) nb
    · decide
    · decide
    · decide
    · exact noBreak_append _ _ (by decide) nc

/-- Core round-trip fact: decoding a rendered record recovers the three
fields, provided they contain no line break and carry no surrounding
whitespace. -/
theorem roundtrip_core (d : PyDate) (a b c : String)
    (ha : pyStrip a = a) (hb : pyStrip b = b) (hc : pyStrip c = c)
    (na : noBreak a = true) (nb : noBreak b = true) (nc : noBreak c = true) :
    load_existing_details (some (write_file_content d a b c)) =
      { tech := some a, fit := some b, eng := some c } := by
  show ((splitlines (write_file_content d a b c)).foldl scanStep
    { current := none, details := {} }).details = _
  rw [splitlines_write_file_content d a b c na nb nc]
  simp only [encodedLines]
  rw [List.foldl_cons, scanStep_skip _ _ (sectionKey?_hdr _) (firstIsGt_hdr _)]
  rw [List.foldl_cons, scanStep_skip _ "" (by decide) (by decide)]
  rw [scan_section _ FieldKey.tech _ _ _ (by decide) (firstIsGt_label a)]
  rw [List.foldl_cons, scanStep_skip _ "" (by decide) (by decide)]
  rw [scan_section _ FieldKey.fit _ _ _ (by decide) (firstIsGt_label b)]
  rw [List.foldl_cons, scanStep_skip _ "" (by decide) (by decide)]
  rw [scan_section _ FieldKey.eng _ _ _ (by decide) (firstIsGt_label c)]
  rw [List.foldl_nil, detail_roundtrip a ha, detail_roundtrip b hb, detail_roundtrip c hc]
  rfl

/-! ### Where a scanned key can come from -/

theorem sectionKey?_headingOf (k : FieldKey) : sectionKey? (headingOf k) = some k := by
  cases k <;> decide

theorem details_get_insert (dt : Details) (k k' : FieldKey) (v : String) :
    (dt.insert k' v).get k = if k = k' then some v else dt.get k := by
  cases k <;> cases k' <;> simp [Details.insert, Details.get]

theorem scanStep_cases (st : ScanState) (l : String) :
    scanStep st l = st ∨
    (∃ k, sectionKey? l = some k ∧ scanStep st l = ⟨some k, st.details⟩) ∨
    (∃ k, st.current = some k ∧
      scanStep st l = ⟨none, st.details.insert k (detailOf l)⟩) := by
  cases hsk : sectionKey? l with
  | some k' => exact Or.inr (Or.inl ⟨k', rfl, scanStep_heading st l k' hsk⟩)
  | none =>
    cases hc : st.current with
    | none =>
      exact Or.inl (by simp [scanStep, hsk, hc])
    | some k' =>
      by_cases hg : firstIsGt l = true
      · exact Or.inr (Or.inr ⟨k', rfl, by simp [scanStep, hsk, hc, hg]⟩)
      · exact Or.inl (by simp [scanStep, hsk, hc, hg])

theorem scan_mem (k : FieldKey) : ∀ (lines : List String) (st : ScanState),
    ((List.foldl scanStep st lines).details.get k).isSome = true →
    (st.details.get k).isSome = true ∨ st.current = some k ∨ headingOf k ∈ lines := by
  intro lines
  induction lines with
  | nil =>
    intro st h
    exact Or.inl (by simpa using h)
  | cons l ls ih =>
    intro st h
    rw [List.foldl_cons] at h
    rcases ih (scanStep st l) h with h' | h' | h'
    · rcases scanStep_cases st l with he | ⟨k', _, he⟩ | ⟨k', hc, he⟩
      · rw [he] at h'
        exact Or.inl h'
      · rw [he] at h'
        exact Or.inl h'
      · rw [he] at h'
        rw [show (ScanState.mk none (st.details.insert k' (detailOf l))).details =
          st.details.insert k' (detailOf l) from rfl, details_get_insert] at h'
        by_cases hkk : k = k'
        · subst hkk
          exact Or.inr (Or.inl hc)
        · rw [if_neg hkk] at h'
          exact Or.inl h'
    · rcases scanStep_cases st l with he | ⟨k', hsk, he⟩ | ⟨k', _, he⟩
      · rw [he] at h'
        exact Or.inr (Or.inl h')
      · rw [he] at h'
        have hk : k' = k := by simpa using h'
        subst hk
        refine Or.inr (Or.inr ?_)
        rw [sectionKey?_eq_some l k' hsk] at *
        exact List.mem_cons_self _ _
      · rw [he] at h'
        simp at h'
    · exact Or.inr (Or.inr (List.mem_cons_of_mem _ h'))

/-! ### Decoding a text that ends in a heading plus one detail line -/

theorem load_join_detail (pre : List String) (k : FieldKey) (dline : String)
    (hpre : ∀ s ∈ pre, noBreak s = true) (hd : noBreak dline = true)
    (hg : firstIsGt dline = true) :
    (load_existing_details (some (joinLines (pre ++ [headingOf k, dline])))).get k =
      some (detailOf dline) := by
  show (((splitlines (joinLines (pre ++ [headingOf k, dline]))).foldl scanStep
    { current := none, details := {} }).details).get k = _
  have hsplit : splitlines (joinLines (pre ++ [headingOf k, dline])) =
      pre ++ [headingOf k, dline] := by
    have hassoc : pre ++ [headingOf k, dline] = (pre ++ [headingOf k]) ++ [dline] := by simp
    rw [hassoc]
    apply splitlines_joinLines
    · intro s hs
      rcases List.mem_append.mp hs with hs | hs
      · exact hpre s hs
      · rw [List.mem_singleton] at hs
        subst hs
        cases k <;> decide
    · exact hd
    · intro h0
      rw [h0] at hg
      exact absurd hg (by decide)
  rw [hsplit, List.foldl_append, List.foldl_cons, List.foldl_cons, List.foldl_nil]
  rw [scanStep_heading _ _ k (sectionKey?_headingOf k)]
  rw [scanStep_detail _ k dline hg]
  exact details_get_insert_self _ _ _

/-! ### Character-wise identity maps -/

theorem list_map_id_of (f : Char → Char) : ∀ l : List Char,
    (∀ x ∈ l, f x = x) → l.map f = l
  | [], _ => rfl
  | x :: xs, h => by
    rw [List.map_cons, h x (by simp),
      list_map_id_of f xs (fun y hy => h y (by simp [hy]))]

theorem map_slash_pad (n w : Nat) :
    (pad n w).data.map (fun ch => if ch = '/' then '_' else ch) = (pad n w).data := by
  apply list_map_id_of
  intro x hx
  rw [pad_data, List.mem_append] at hx
  rcases hx with hx | hx
  · rw [List.eq_of_mem_replicate hx]
    decide
  · exact if_neg (isDigit_ne_slash x (natChars_digits n x hx))

/-! ### `parse_date` against `strptime`'s Unicode behaviour -/

/-- `strptime` accepts Unicode decimal digits wherever its pattern uses
`\d`: an Arabic-Indic year parses to 2024. -/
theorem parse_date_unicode_year : parse_date "٢٠٢٤-03-05" = some ⟨2024, 3, 5⟩ := by
  decide

/-- The `[12]\d` branch of the day pattern accepts a Unicode second digit. -/
theorem parse_date_unicode_day : parse_date "2024-03-1٠" = some ⟨2024, 3, 10⟩ := by
  decide

/-- The month pattern `1[0-2]|0[1-9]|[1-9]` is ASCII-only, so an
Arabic-Indic month digit is rejected. -/
theorem parse_date_ascii_month : parse_date "2024-٠3-05" = none := by
  decide

/-! ## The claims -/

/-- C1 counterexample: for date 2024-03-05 and the non-empty fields `"x "`,
`"y"`, `"z"`, decoding the encoded record does not return the original
mapping — the decoder strips the trailing space of `"x "`. -/
theorem decode_encode_roundtrip_cex :
    load_existing_details (some (write_file_content ⟨2024, 3, 5⟩ "x " "y" "z")) ≠
      { tech := some "x ", fit := some "y", eng := some "z" } ∧
    ("x " : String) ≠ "" ∧ ("y" : String) ≠ "" ∧ ("z" : String) ≠ "" :=
  ⟨by decide, by decide, by decide, by decide⟩

/-- C1 (amended): for every date `d` and non-empty strings `a`, `b`, `c` that
contain no line-break character and carry no leading or trailing whitespace,
decoding the encoded record — `load_existing_details` applied to the text
produced by `write_file` — yields exactly the mapping
`{tech: a, fit: b, eng: c}`. -/
theorem decode_encode_roundtrip (d : PyDate) (a b c : String)
    (_hea : a ≠ "") (_heb : b ≠ "") (_hec : c ≠ "")
    (ha : pyStrip a = a) (hb : pyStrip b = b) (hc : pyStrip c = c)
    (na : noBreak a = true) (nb : noBreak b = true) (nc : noBreak c = true) :
    load_existing_details (some (write_file_content d a b c)) =
      { tech := some a, fit := some b, eng := some c } :=
  roundtrip_core d a b c ha hb hc na nb nc

theorem decode_encode_roundtrip_witness :
    load_existing_details (some (write_file_content ⟨2024, 3, 5⟩ "x" "y" "z")) =
      { tech := some "x", fit := some "y", eng := some "z" } :=
  decode_encode_roundtrip ⟨2024, 3, 5⟩ "x" "y" "z" (by decide) (by decide) (by decide)
    (by decide) (by decide) (by decide) (by decide) (by decide) (by decide)

/-- C2 counterexample: after the heading `## 技术`, the detail line `> hello`
starts with the blockquote marker and lacks the label `细节：`;
`load_existing_details` stores `"hello"` for the field, not the empty
string. -/
theorem malformed_detail_cex :
    (load_existing_details (some "## 技术\n> hello")).get FieldKey.tech = some "hello" ∧
    (some "hello" : Option String) ≠ some "" :=
  ⟨by decide, by decide⟩

/-- C2 (amended): for every input file whose detail line after a recognized
heading starts with the blockquote marker but lacks the label `细节：`,
`load_existing_details` stores that line with leading `'>'` markers and
surrounding whitespace stripped — the raw text minus the marker, not the
empty string. -/
theorem malformed_detail_keeps_text (pre : List String) (k : FieldKey) (dline : String)
    (hpre : ∀ s ∈ pre, noBreak s = true) (hd : noBreak dline = true)
    (hg : firstIsGt dline = true)
    (hnp : beginsWith "细节：".data (stripMarker dline).data = false) :
    (load_existing_details (some (joinLines (pre ++ [headingOf k, dline])))).get k =
      some (stripMarker dline) := by
  rw [load_join_detail pre k dline hpre hd hg]
  have hrl : removeLabel (stripMarker dline) = stripMarker dline := by
    rw [removeLabel, if_neg (by simp [hnp])]
  have hdet : detailOf dline = stripMarker dline := by
    show pyStrip (removeLabel (stripMarker dline)) = _
    rw [hrl]
    exact pyStrip_idem _
  rw [hdet]

theorem malformed_detail_keeps_text_witness :
    (load_existing_details (some (joinLines ([] ++ [headingOf FieldKey.tech, "> hello"])))).get
      FieldKey.tech = some (stripMarker "> hello") :=
  malformed_detail_keeps_text [] FieldKey.tech "> hello" (by simp) (by decide) (by decide)
    (by decide)

/-- C3 counterexample: the record written for 2024-03-05 with tech `"x "`
(trailing space) is not reproduced byte-for-byte when its fields are loaded
back and re-saved with all defaults accepted: the reload strips the space. -/
theorem resave_idempotent_cex :
    write_file_content ⟨2024, 3, 5⟩
        (prompt (some ((load_existing_details
          (some (write_file_content ⟨2024, 3, 5⟩ "x " "y" "z"))).tech.getD "")) "")
        (prompt (some ((load_existing_details
          (some (write_file_content ⟨2024, 3, 5⟩ "x " "y" "z"))).fit.getD "")) "")
        (prompt (some ((load_existing_details
          (some (write_file_content ⟨2024, 3, 5⟩ "x " "y" "z"))).eng.getD "")) "") ≠
      write_file_content ⟨2024, 3, 5⟩ "x " "y" "z" := by
  decide

/-- C3 (amended): for every record file produced by `write_file` from fields
that contain no line break and no surrounding whitespace, loading its fields
with `load_existing_details` and re-saving via `write_file` with every prompt
left at its default produces byte-identical file content. -/
theorem resave_idempotent (d : PyDate) (a b c : String)
    (ha : pyStrip a = a) (hb : pyStrip b = b) (hc : pyStrip c = c)
    (na : noBreak a = true) (nb : noBreak b = true) (nc : noBreak c = true) :
    write_file_content d
        (prompt (some ((load_existing_details
          (some (write_file_content d a b c))).tech.getD "")) "")
        (prompt (some ((load_existing_details
          (some (write_file_content d a b c))).fit.getD "")) "")
        (prompt (some ((load_existing_details
          (some (write_file_content d a b c))).eng.getD "")) "") =
      write_file_content d a b c := by
  rw [roundtrip_core d a b c ha hb hc na nb nc]
  rfl

theorem resave_idempotent_witness :
    write_file_content ⟨2024, 3, 5⟩
        (prompt (some ((load_existing_details
          (some (write_file_content ⟨2024, 3, 5⟩ "x" "y" "z"))).tech.getD "")) "")
        (prompt (some ((load_existing_details
          (some (write_file_content ⟨2024, 3, 5⟩ "x" "y" "z"))).fit.getD "")) "")
        (prompt (some ((load_existing_details
          (some (write_file_content ⟨2024, 3, 5⟩ "x" "y" "z"))).eng.getD "")) "") =
      write_file_content ⟨2024, 3, 5⟩ "x" "y" "z" :=
  resave_idempotent ⟨2024, 3, 5⟩ "x" "y" "z" (by decide) (by decide) (by decide)
    (by decide) (by decide) (by decide)

theorem gitPush_ne_add (f : String) : gitPushCmd ≠ gitAddCmd f := by
  simp [gitPushCmd, gitAddCmd]

theorem gitPush_ne_commit (m : String) : gitPushCmd ≠ gitCommitCmd m := by
  simp [gitPushCmd, gitCommitCmd]

theorem gitCommit_ne_add (m f : String) : gitCommitCmd m ≠ gitAddCmd f := by
  simp [gitCommitCmd, gitAddCmd]

/-- C4: in every run that reaches the publish sequence, a non-zero status
from `git add` means `git commit` and `git push` are never invoked; a
non-zero status from `git commit` means `git push` is never invoked; and in
each case (including a failing `git push`) the process exits with that
step's non-zero status. -/
theorem publish_aborts_on_failure (today : PyDate) (dateRaw : String)
    (fs : String → Option String) (techRaw fitRaw engRaw confirmRaw : String)
    (runner : List String → Int) (d : PyDate)
    (hd : parse_date (prompt (some (dateDash today)) dateRaw) = some d)
    (hcf : confirm false confirmRaw = true) :
    (runner (gitAddCmd (fileNameOf d)) = 0 →
      runner (gitCommitCmd ("chore: daily log " ++ dateDash d)) ≠ 0 →
      Event.runGit gitPushCmd ∉
        (main_run today dateRaw fs techRaw fitRaw engRaw confirmRaw runner).events ∧
      (main_run today dateRaw fs techRaw fitRaw engRaw confirmRaw runner).exitCode =
        runner (gitCommitCmd ("chore: daily log " ++ dateDash d)) ∧
      (main_run today dateRaw fs techRaw fitRaw engRaw confirmRaw runner).exitCode ≠ 0) ∧
    (runner (gitAddCmd (fileNameOf d)) ≠ 0 →
      Event.runGit (gitCommitCmd ("chore: daily log " ++ dateDash d)) ∉
        (main_run today dateRaw fs techRaw fitRaw engRaw confirmRaw runner).events ∧
      Event.runGit gitPushCmd ∉
        (main_run today dateRaw fs techRaw fitRaw engRaw confirmRaw runner).events ∧
      (main_run today dateRaw fs techRaw fitRaw engRaw confirmRaw runner).exitCode =
        runner (gitAddCmd (fileNameOf d)) ∧
      (main_run today dateRaw fs techRaw fitRaw engRaw confirmRaw runner).exitCode ≠ 0) ∧
    (runner (gitAddCmd (fileNameOf d)) = 0 →
      runner (gitCommitCmd ("chore: daily log " ++ dateDash d)) = 0 →
      runner gitPushCmd ≠ 0 →
      (main_run today dateRaw fs techRaw fitRaw engRaw confirmRaw runner).exitCode =
        runner gitPushCmd ∧
      (main_run today dateRaw fs techRaw fitRaw engRaw confirmRaw runner).exitCode ≠ 0) := by
  refine ⟨fun h1 h2 => ?_, fun h1 => ?_, fun h1 h2 h3 => ?_⟩ <;>
    cases hfs : fs (fileNameOf d) <;>
      simp [main_run, hd, hcf, hfs, h1, gitPush_ne_add, gitPush_ne_commit, gitCommit_ne_add, *]

theorem publish_aborts_on_failure_witness :
    Event.runGit gitPushCmd ∉
      (main_run ⟨2024, 3, 5⟩ "" (fun _ => none) "a" "b" "c" "y"
        (fun cmd => if cmd = gitCommitCmd "chore: daily log 2024-03-05" then 1 else 0)).events ∧
    (main_run ⟨2024, 3, 5⟩ "" (fun _ => none) "a" "b" "c" "y"
        (fun cmd => if cmd = gitCommitCmd "chore: daily log 2024-03-05" then 1 else 0)).exitCode =
      (fun cmd => if cmd = gitCommitCmd "chore: daily log 2024-03-05" then (1 : Int) else 0)
        (gitCommitCmd ("chore: daily log " ++ dateDash ⟨2024, 3, 5⟩)) ∧
    (main_run ⟨2024, 3, 5⟩ "" (fun _ => none) "a" "b" "c" "y"
        (fun cmd => if cmd = gitCommitCmd "chore: daily log 2024-03-05" then 1 else 0)).exitCode ≠
      0 :=
  (publish_aborts_on_failure ⟨2024, 3, 5⟩ "" (fun _ => none) "a" "b" "c" "y"
      (fun cmd => if cmd = gitCommitCmd "chore: daily log 2024-03-05" then 1 else 0)
      ⟨2024, 3, 5⟩ (by decide) (by decide)).1 (by decide) (by decide)

/-- C5: whenever the date input does not parse as `YYYY-MM-DD`, the run
performs no file read, no file write and no git command, and exits with the
non-zero code 1. -/
theorem invalid_date_no_effects (today : PyDate) (dateRaw : String)
    (fs : String → Option String) (techRaw fitRaw engRaw confirmRaw : String)
    (runner : List String → Int)
    (hd : parse_date (prompt (some (dateDash today)) dateRaw) = none) :
    main_run today dateRaw fs techRaw fitRaw engRaw confirmRaw runner =
      { events := [], exitCode := 1 } := by
  simp [main_run, hd]

theorem invalid_date_no_effects_witness :
    main_run ⟨2024, 3, 5⟩ "03/05/2024" (fun _ => none) "" "" "" "y" (fun _ => 0) =
      { events := [], exitCode := 1 } :=
  invalid_date_no_effects ⟨2024, 3, 5⟩ "03/05/2024" (fun _ => none) "" "" "" "y"
    (fun _ => 0) (by decide)

/-- C6: `load_existing_details` never fails — a missing file or empty text
yields the empty mapping, and a field key is present in the result only if
its heading occurs as a line of the text (so unparseable content leaves the
affected keys absent). -/
theorem load_never_fails :
    load_existing_details none = {} ∧
    load_existing_details (some "") = {} ∧
    ∀ (text : String) (k : FieldKey),
      (load_existing_details (some text)).get k ≠ none →
      headingOf k ∈ splitlines text := by
  refine ⟨rfl, rfl, ?_⟩
  intro text k h
  have h' : (((splitlines text).foldl scanStep
      { current := none, details := {} }).details.get k).isSome = true :=
    Option.ne_none_iff_isSome.mp h
  rcases scan_mem k (splitlines text) _ h' with h2 | h2 | h2
  · cases k <;> simp [Details.get] at h2
  · simp at h2
  · exact h2

theorem load_never_fails_witness :
    headingOf FieldKey.eng ∈ splitlines "## 英语\n> x" :=
  load_never_fails.2.2 "## 英语\n> x" FieldKey.eng (by decide)

/-- C7: for date 2024-03-05 with tech `"refactor cache"`, fitness `"5k run"`,
english `"20 new words"`, the produced file content is exactly the fixed
layout — first line `# 2024/03/05`, then the three sections in order
tech/fitness/english, each a level-2 heading, a blank line, one blockquote
detail line `> 细节：<text>` with exactly the supplied text, and a blank
separator line. -/
theorem scenario_write_file :
    write_file_content ⟨2024, 3, 5⟩ "refactor cache" "5k run" "20 new words" =
      "# 2024/03/05\n\n## 技术\n\n> 细节：refactor cache\n\n## 健身\n\n> 细节：5k run\n\n## 英语\n\n> 细节：20 new words\n" ∧
    splitlines (write_file_content ⟨2024, 3, 5⟩ "refactor cache" "5k run" "20 new words") =
      ["# 2024/03/05", "", "## 技术", "", "> 细节：refactor cache", "", "## 健身", "",
       "> 细节：5k run", "", "## 英语", "", "> 细节：20 new words"] :=
  ⟨by decide, by decide⟩

/-- C8: for every date, the file name `YYYY_MM_DD.md` chosen by the
orchestrator is exactly the `YYYY/MM/DD` header date written by `write_file`
with `'/'` replaced by `'_'` plus the `.md` suffix — digit for digit the same
calendar date — and the written content indeed starts with that header. -/
theorem filename_matches_header (d : PyDate) :
    fileNameOf d =
      (⟨(dateSlash d).data.map fun ch => if ch = '/' then '_' else ch⟩ : String) ++ ".md" ∧
    ∀ a b c : String, ∃ rest : String,
      write_file_content d a b c = "# " ++ dateSlash d ++ rest := by
  constructor
  · apply String.ext
    simp only [fileNameOf, dateSlash, String.data_append]
    show _ = ((((pad d.year 4).data ++ "/".data ++ (pad d.month 2).data ++ "/".data ++
      (pad d.day 2).data).map fun ch => if ch = '/' then '_' else ch) ++ ".md".data)
    simp only [List.map_append, map_slash_pad]
    simp
  · intro a b c
    refine ⟨"\n\n" ++ TEMPLATE_BODY a b c, ?_⟩
    rw [write_file_content, TEMPLATE_HEAD]
    simp [String.append_assoc]

/-- C9: in every input text where a recognized section heading occurs more
than once, each directly followed by a blockquote detail line, the decoder
returns the detail of the last occurrence: whatever earlier lines stored for
the key, a final heading-plus-detail pair overwrites it. -/
theorem last_heading_occurrence_wins (pre : List String) (k : FieldKey) (dline : String)
    (hpre : ∀ s ∈ pre, noBreak s = true) (hd : noBreak dline = true)
    (hg : firstIsGt dline = true) :
    (load_existing_details (some (joinLines (pre ++ [headingOf k, dline])))).get k =
      some (detailOf dline) :=
  load_join_detail pre k dline hpre hd hg

theorem last_heading_occurrence_wins_witness :
    (load_existing_details (some (joinLines (["## 技术", "> 细节：old"] ++
      [headingOf FieldKey.tech, "> 细节：new"])))).get FieldKey.tech =
      some (detailOf "> 细节：new") :=
  last_heading_occurrence_wins ["## 技术", "> 细节：old"] FieldKey.tech "> 细节：new"
    (by decide) (by decide) (by decide)

/-- C10: for every prompt with a non-`None` default, input consisting only of
whitespace returns the default, and any other input is returned with its
leading and trailing whitespace stripped — stripping it again changes
nothing, so the value carries no surrounding whitespace. -/
theorem prompt_strips_or_defaults (dflt raw : String) :
    (pyStrip raw = "" → prompt (some dflt) raw = dflt) ∧
    (pyStrip raw ≠ "" →
      prompt (some dflt) raw = pyStrip raw ∧
      pyStrip (prompt (some dflt) raw) = prompt (some dflt) raw) := by
  constructor
  · intro h
    simp only [prompt]
    rw [if_pos h]
  · intro h
    have h1 : prompt (some dflt) raw = pyStrip raw := by
      simp only [prompt]
      rw [if_neg h]
    exact ⟨h1, by rw [h1]; exact pyStrip_idem raw⟩

theorem prompt_strips_or_defaults_witness :
    prompt (some "prev") "   " = "prev" ∧
    (prompt (some "prev") " hi " = pyStrip " hi " ∧
      pyStrip (prompt (some "prev") " hi ") = prompt (some "prev") " hi ") :=
  ⟨(prompt_strips_or_defaults "prev" "   ").1 (by decide),
   (prompt_strips_or_defaults "prev" " hi ").2 (by decide)⟩

end DailyEntry
